import Mathlib

/-!
Shallow embedding of the gold-silver transaction ledger and FIFO valuation
engine (src/utils.ts and the in-app replay function `recalculateAllData`).

Modelling conventions, chosen to stay faithful to the TypeScript source:
* Quantities, rates and money amounts are `ℚ` (the source uses JS numbers;
  all claims here are settled over exact arithmetic).
* ISO date strings ("YYYY-MM-DD"), ISO creation timestamps and identifiers
  are compared with `localeCompare` in the source; for fixed-width ISO
  strings that comparison coincides with chronological order, so dates,
  timestamps and identifiers are modelled as `ℕ` with its linear order.
  A date's `getTime()` is `date * msPerDay`.
* JS `Array.prototype.sort` is a stable sort by the supplied comparator
  (guaranteed since ES2019); it is modelled by a stable insertion sort.
* Host string formatting (`Intl.NumberFormat`, `toFixed`) is abstracted:
  the consumption-trace strings built by the replay and the issue strings
  built by the audit are modelled as inductive values carrying the same
  numeric payloads the source interpolates into the strings.
* Optional JS fields (`createdAt`, `taxableAmount`, `cogs`, ...) are
  `Option`; the JS truthiness test `x || d` on a number is modelled as
  "`d` when the field is absent or zero".
-/

/-- Transaction kind: the source's `'PURCHASE' | 'SALE'` union
(spec names: ACQUIRE / DISPOSE). -/
inductive TxType where
  | PURCHASE
  | SALE
deriving DecidableEq

/-- One line of a DISPOSE consumption trace (`fifoLog`).  The source builds
strings; each constructor carries the numbers the source interpolates. -/
inductive TraceLine where
  /-- "⚠️ WARNING: No Timestamp. Sequence assumed by ID." -/
  | noTimestamp
  /-- "{take} g from {batchDate} @ {cost}" -/
  | consumed (take : ℚ) (batchDate : ℕ) (cost : ℚ)
  /-- "⚠️ STOCKOUT: {leftover} g sold without inventory!" -/
  | stockout (leftover : ℚ)
deriving DecidableEq

/-- Transaction record (the source's `Invoice`).  The engine-derived fields
`cogs`, `profit`, `fifoLog` are carried on the same record, absent/empty on
raw input and filled in by the Replay Engine's annotated output. -/
structure Invoice where
  id : ℕ
  date : ℕ
  createdAt : Option ℕ
  type : TxType
  partyName : String
  quantityGrams : ℚ
  ratePerGram : ℚ
  taxableAmount : Option ℚ
  cogs : Option ℚ := none
  profit : Option ℚ := none
  fifoLog : List TraceLine := []
deriving DecidableEq

/-- Engine-owned batch state (the source's `InventoryBatch`). -/
structure InventoryBatch where
  id : ℕ
  date : ℕ
  originalQuantity : ℚ
  remainingQuantity : ℚ
  costPerGram : ℚ
  closedDate : Option ℕ := none
deriving DecidableEq

/-- The replay's batch-depletion epsilon: the literal `0.0001` of
`recalculateAllData` (also the audit's negative-stock tolerance). -/
def epsReplay : ℚ := 1 / 10000

/-- The snapshot walk's loop-continuation epsilon: the literal `0.000001`
of `getInventorySnapshot`. -/
def epsSnap : ℚ := 1 / 1000000

/-- The audit's stock-mismatch tolerance: the literal `0.001` of
`performFullSystemAudit`. -/
def epsAudit : ℚ := 1 / 1000

/-- The three-tier comparator shared (textually duplicated, identically) by
`recalculateAllData` and `getInventorySnapshot`: calendar date first, then
creation timestamp when BOTH records carry one (the tier is skipped
entirely otherwise), then identifier.  `txBefore a b` models
"comparator(a, b) < 0". -/
def txBefore (a b : Invoice) : Bool :=
  if a.date ≠ b.date then a.date < b.date
  else
    match a.createdAt, b.createdAt with
    | some x, some y => if x ≠ y then x < y else a.id < b.id
    | _, _ => a.id < b.id

/-- Stable insertion of `x` into `l`: `x` is placed before the first
element not strictly before it, so elements tying with `x` that were
already in `l` stay in front — exactly the stability contract of JS
`Array.prototype.sort`. -/
def insertBy (lt : α → α → Bool) (x : α) : List α → List α
  | [] => [x]
  | y :: ys => if lt y x then y :: insertBy lt x ys else x :: y :: ys

/-- Stable sort by a strict comparator, modelling `[...arr].sort(cmp)`. -/
def stableSortBy (lt : α → α → Bool) (l : List α) : List α :=
  l.foldr (insertBy lt) []

/-- `[...allInvoices].sort(threeTierComparator)`. -/
def sortTx (l : List Invoice) : List Invoice :=
  stableSortBy txBefore l

/-- The audit engine's sort: `.sort((a, b) => a.date.localeCompare(b.date))`
— date only, stable within equal dates. -/
def sortByDate (l : List Invoice) : List Invoice :=
  stableSortBy (fun a b => a.date < b.date) l

/-- Batch created by an ACQUIRE:
`{ id, date, originalQuantity: q, remainingQuantity: q, costPerGram: rate }`. -/
def newBatchOf (inv : Invoice) : InventoryBatch :=
  { id := inv.id, date := inv.date, originalQuantity := inv.quantityGrams,
    remainingQuantity := inv.quantityGrams, costPerGram := inv.ratePerGram,
    closedDate := none }

/-- The DISPOSE consumption loop of `recalculateAllData` (lines 231-245):
walks the batch list once; at each batch first checks
`remainingToSell <= 0` (break), skips batches with remaining `≤ 0.0001`,
takes `min(remaining, need)` from the rest, snapping a post-take remaining
`< 0.0001` to exactly `0` with the sale date as `closedDate`.
Returns (new batch list, leftover need, accumulated COGS, trace lines). -/
def sellWalk (saleDate : ℕ) :
    List InventoryBatch → ℚ → List InventoryBatch × ℚ × ℚ × List TraceLine
  | [], need => ([], need, 0, [])
  | b :: rest, need =>
    if need ≤ 0 then (b :: rest, need, 0, [])
    else if epsReplay < b.remainingQuantity then
      let take := min b.remainingQuantity need
      let rem := b.remainingQuantity - take
      let b' := if rem < epsReplay
        then { b with remainingQuantity := 0, closedDate := some saleDate }
        else { b with remainingQuantity := rem }
      let r := sellWalk saleDate rest (need - take)
      (b' :: r.1, r.2.1, take * b.costPerGram + r.2.2.1,
        TraceLine.consumed take b.date b.costPerGram :: r.2.2.2)
    else
      let r := sellWalk saleDate rest need
      (b :: r.1, r.2.1, r.2.2.1, r.2.2.2)

/-- The revenue figure the replay uses for profit:
`inv.taxableAmount || (inv.quantityGrams * inv.ratePerGram)` — the JS `||`
falls back when `taxableAmount` is absent OR zero. -/
def effectiveRevenue (inv : Invoice) : ℚ :=
  match inv.taxableAmount with
  | some t => if t = 0 then inv.quantityGrams * inv.ratePerGram else t
  | none => inv.quantityGrams * inv.ratePerGram

/-- Processing of a single sorted transaction by `recalculateAllData`:
returns the new batch state and the annotated transaction. -/
def processOne (state : List InventoryBatch) (inv : Invoice) :
    List InventoryBatch × Invoice :=
  match inv.type with
  | TxType.PURCHASE =>
      (state ++ [newBatchOf inv],
       { inv with cogs := some 0, profit := some 0, fifoLog := [] })
  | TxType.SALE =>
      let warn : List TraceLine :=
        if inv.createdAt.isNone then [TraceLine.noTimestamp] else []
      let w := sellWalk inv.date state inv.quantityGrams
      let log := warn ++ w.2.2.2 ++
        (if epsReplay < w.2.1 then [TraceLine.stockout w.2.1] else [])
      (w.1, { inv with cogs := some w.2.2.1,
                       profit := some (effectiveRevenue inv - w.2.2.1),
                       fifoLog := log })

/-- The replay fold over the sorted transaction list, threading the batch
state and collecting annotated transactions in order. -/
def replayAux : List InventoryBatch → List Invoice →
    List Invoice × List InventoryBatch
  | state, [] => ([], state)
  | state, inv :: rest =>
    let p := processOne state inv
    let r := replayAux p.1 rest
    (p.2 :: r.1, r.2)

/-- Result record of `recalculateAllData`. -/
structure RecalcResult where
  updatedInvoices : List Invoice
  updatedInventory : List InventoryBatch
deriving DecidableEq

/-- The FIFO Replay Engine (`recalculateAllData`): sorts by the three-tier
comparator, then replays from a fresh empty batch list. -/
def recalculateAllData (allInvoices : List Invoice) : RecalcResult :=
  let r := replayAux [] (sortTx allInvoices)
  { updatedInvoices := r.1, updatedInventory := r.2 }

/-- Sum of remaining quantities over a batch list — the Replay Engine's
live stock total. -/
def batchStockSum (bs : List InventoryBatch) : ℚ :=
  (bs.map (fun b => b.remainingQuantity)).sum

/-- Sum of remaining quantity times unit cost over a batch list — the
Replay Engine's live value total. -/
def batchValueSum (bs : List InventoryBatch) : ℚ :=
  (bs.map (fun b => b.remainingQuantity * b.costPerGram)).sum

/-! ### Snapshot Engine (`getInventorySnapshot`) -/

/-- The lightweight `{quantity, cost}` pairs of the snapshot walk. -/
structure SnapPair where
  quantity : ℚ
  cost : ℚ
deriving DecidableEq

/-- The snapshot's inner `while` loop (lines 86-96): while
`remainingToSell > 0.000001` and pairs remain, either reduce the head pair
(when its quantity strictly exceeds the need, zeroing the need) or shift
it off and keep going. -/
def snapConsume : List SnapPair → ℚ → List SnapPair
  | [], _ => []
  | b :: rest, rts =>
    if rts ≤ epsSnap then b :: rest
    else if rts < b.quantity then
      { b with quantity := b.quantity - rts } :: rest
    else snapConsume rest (rts - b.quantity)

/-- One transaction of the snapshot walk: state is (pair list, running
signed total quantity — decremented on SALE even past zero). -/
def snapStep (st : List SnapPair × ℚ) (inv : Invoice) : List SnapPair × ℚ :=
  match inv.type with
  | TxType.PURCHASE =>
      (st.1 ++ [{ quantity := inv.quantityGrams, cost := inv.ratePerGram }],
       st.2 + inv.quantityGrams)
  | TxType.SALE => (snapConsume st.1 inv.quantityGrams, st.2 - inv.quantityGrams)

/-- The snapshot's `{grams, value}` result. -/
structure Snapshot where
  grams : ℚ
  value : ℚ
deriving DecidableEq

/-- The Snapshot Engine (`getInventorySnapshot`): filter to
`date ≤ targetDate`, sort with the (textually identical) three-tier
comparator, walk, then clamp the running total to zero for `grams` and sum
`quantity * cost` over the surviving pairs for `value`. -/
def getInventorySnapshot (invoices : List Invoice) (targetDate : ℕ) : Snapshot :=
  let relevant := sortTx (invoices.filter (fun i => decide (i.date ≤ targetDate)))
  let st := relevant.foldl snapStep ([], 0)
  { grams := max 0 st.2,
    value := (st.1.map (fun b => b.quantity * b.cost)).sum }

/-- `calculateInventoryValueOnDate`. -/
def calculateInventoryValueOnDate (invoices : List Invoice) (targetDate : ℕ) : ℚ :=
  (getInventorySnapshot invoices targetDate).value

/-! ### Fueled variant of the snapshot consumption loop, for the
termination claim: the `while` loop is given an explicit iteration budget
and returns `none` when the budget is exhausted with the loop condition
still true.  One unit of fuel is one execution of the loop body. -/

/-- Fueled version of `snapConsume`. -/
def snapConsumeF : ℕ → List SnapPair → ℚ → Option (List SnapPair)
  | _, [], _ => some []
  | fuel, b :: rest, rts =>
    if rts ≤ epsSnap then some (b :: rest)
    else
      match fuel with
      | 0 => none
      | fuel + 1 =>
        if rts < b.quantity then
          snapConsumeF fuel ({ b with quantity := b.quantity - rts } :: rest) 0
        else snapConsumeF fuel rest (rts - b.quantity)

/-- Fueled version of `snapStep`: each SALE's loop gets a budget of
(current open-pair count + 1) iterations. -/
def snapStepF (st : List SnapPair × ℚ) (inv : Invoice) :
    Option (List SnapPair × ℚ) :=
  match inv.type with
  | TxType.PURCHASE =>
      some (st.1 ++ [{ quantity := inv.quantityGrams, cost := inv.ratePerGram }],
        st.2 + inv.quantityGrams)
  | TxType.SALE =>
      (snapConsumeF (st.1.length + 1) st.1 inv.quantityGrams).map
        (fun bs => (bs, st.2 - inv.quantityGrams))

/-- Fueled version of `getInventorySnapshot`: `none` would mean some
inner consumption loop failed to terminate within its budget. -/
def getInventorySnapshotF (invoices : List Invoice) (targetDate : ℕ) :
    Option Snapshot :=
  let relevant := sortTx (invoices.filter (fun i => decide (i.date ≤ targetDate)))
  (relevant.foldl (fun acc inv => acc.bind (fun st => snapStepF st inv))
      (some ([], 0))).map
    (fun st => { grams := max 0 st.2,
                 value := (st.1.map (fun b => b.quantity * b.cost)).sum })

/-! ### Analytics Layer -/

/-- Milliseconds per day, the `1000 * 60 * 60 * 24` of the source. -/
def msPerDay : ℚ := 86400000

/-- `AgingStats`: the source's bucket record (keys `'0-7'`, `'8-15'`,
`'16-30'`, `'30+'`) plus the weighted average age. -/
structure AgingStats where
  bucket0to7 : ℚ
  bucket8to15 : ℚ
  bucket16to30 : ℚ
  bucket30plus : ℚ
  weightedAvgDays : ℚ
deriving DecidableEq

/-- A batch's age in whole days:
`Math.ceil(Math.abs(now - batchDate.getTime()) / msPerDay)` with the batch
date's `getTime()` being `date * msPerDay`. -/
def ageDays (now : ℚ) (b : InventoryBatch) : ℤ :=
  ⌈|now - (b.date : ℚ) * msPerDay| / msPerDay⌉

/-- Accumulator state of the `forEach` in `calculateStockAging`. -/
structure AgingAcc where
  b0 : ℚ
  b8 : ℚ
  b16 : ℚ
  b30 : ℚ
  totalDaysWeighted : ℚ
  totalStock : ℚ

/-- One batch of the aging accumulation: skip non-active batches
(`remainingQuantity <= 0`), otherwise add the remaining grams to exactly
the bucket selected by the `if / else if` chain. -/
def agingStep (now : ℚ) (acc : AgingAcc) (b : InventoryBatch) : AgingAcc :=
  if b.remainingQuantity ≤ 0 then acc
  else
    let d := ageDays now b
    let acc := { acc with
      totalStock := acc.totalStock + b.remainingQuantity,
      totalDaysWeighted := acc.totalDaysWeighted + (d : ℚ) * b.remainingQuantity }
    if d ≤ 7 then { acc with b0 := acc.b0 + b.remainingQuantity }
    else if d ≤ 15 then { acc with b8 := acc.b8 + b.remainingQuantity }
    else if d ≤ 30 then { acc with b16 := acc.b16 + b.remainingQuantity }
    else { acc with b30 := acc.b30 + b.remainingQuantity }

/-- `calculateStockAging`, parametrised by the wall-clock `now` (in ms)
that the source reads from `new Date()`. -/
def calculateStockAging (now : ℚ) (inventory : List InventoryBatch) : AgingStats :=
  let acc := inventory.foldl (agingStep now) ⟨0, 0, 0, 0, 0, 0⟩
  { bucket0to7 := acc.b0, bucket8to15 := acc.b8, bucket16to30 := acc.b16,
    bucket30plus := acc.b30,
    weightedAvgDays :=
      if 0 < acc.totalStock then acc.totalDaysWeighted / acc.totalStock else 0 }

/-- `TurnoverStats`. -/
structure TurnoverStats where
  turnoverRatio : ℚ
  avgDaysToSell : ℚ
  avgInventoryValue : ℚ
  totalCOGS : ℚ
deriving DecidableEq

/-- `calculateTurnoverStats`: in-window SALE COGS (`s.cogs || 0`), average
of the two boundary snapshot values, guarded divisions for the ratio and
days-to-sell, window length in days floored at 1. -/
def calculateTurnoverStats (invoices : List Invoice) (startDate endDate : ℕ) :
    TurnoverStats :=
  let periodInvoices := invoices.filter
    (fun i => decide (startDate ≤ i.date) && decide (i.date ≤ endDate))
  let sales := periodInvoices.filter (fun i => decide (i.type = TxType.SALE))
  let totalCOGS := (sales.map (fun s => s.cogs.getD 0)).sum
  let startInventoryVal := calculateInventoryValueOnDate invoices startDate
  let endInventoryVal := calculateInventoryValueOnDate invoices endDate
  let avgInventoryValue := (startInventoryVal + endInventoryVal) / 2
  let turnoverRatio :=
    if 0 < avgInventoryValue then totalCOGS / avgInventoryValue else 0
  let daysInPeriod : ℚ :=
    max 1 (((endDate : ℚ) * msPerDay - (startDate : ℚ) * msPerDay) / msPerDay)
  let avgDaysToSell := if 0 < turnoverRatio then daysInPeriod / turnoverRatio else 0
  { turnoverRatio := turnoverRatio, avgDaysToSell := avgDaysToSell,
    avgInventoryValue := avgInventoryValue, totalCOGS := totalCOGS }

/-! ### Audit Engine -/

/-- Issue strings of the audit report, abstracted to constructors carrying
the numbers the source interpolates (host number formatting elided). -/
inductive AuditIssue where
  /-- "Stock Mismatch: Calculated {calculated}g vs Expected {expected}g" -/
  | stockMismatch (calculated expected : ℚ)
  /-- "Negative Stock Detected: {count} instances ..." -/
  | negativeStock (count : ℕ)
  /-- "Data Integrity: {count} records have missing or invalid ..." -/
  | dataIntegrity (count : ℕ)
deriving DecidableEq

/-- `AuditReport`.  `generatedAt` is the wall-clock timestamp parameter. -/
structure AuditReport where
  generatedAt : ℕ
  totalInvoices : ℕ
  dataIntegrityIssues : List AuditIssue
  healthScore : ℤ
  recalculatedStock : ℚ
  recalculatedValue : ℚ
deriving DecidableEq

/-- Audit check 1: the naive signed stock total
`sum(PURCHASE quantity) - sum(SALE quantity)`, no FIFO, no clamping. -/
def naiveStockCheck (invoices : List Invoice) : ℚ :=
  invoices.foldl
    (fun acc inv =>
      if inv.type = TxType.PURCHASE then acc + inv.quantityGrams
      else acc - inv.quantityGrams)
    0

/-- The running-signed-total walk of audit check 2 over an already-ordered
list: count the instances where the total dips below `-0.0001`. -/
def negDipCount : ℚ → ℕ → List Invoice → ℕ
  | _, count, [] => count
  | running, count, inv :: rest =>
    let running' :=
      if inv.type = TxType.PURCHASE then running + inv.quantityGrams
      else running - inv.quantityGrams
    negDipCount running' (if running' < -epsReplay then count + 1 else count) rest

/-- Audit check 2 as the source performs it: the walk over the
transactions sorted BY DATE ONLY (`sort((a, b) => a.date.localeCompare(b.date))`). -/
def auditNegativeStockCount (invoices : List Invoice) : ℕ :=
  negDipCount 0 0 (sortByDate invoices)

/-- Audit check 3: records with a blank counterparty, non-positive
quantity, or non-positive rate.  (The source also tests `!i.date`, a blank
date string; dates are total in this model, so that disjunct is omitted.) -/
def auditIntegrityCount (invoices : List Invoice) : ℕ :=
  (invoices.filter
    (fun i => decide (i.partyName = "") || decide (i.quantityGrams ≤ 0)
      || decide (i.ratePerGram ≤ 0))).length

/-- The Audit Engine (`performFullSystemAudit`), parametrised by the
wall-clock `now` the source reads for `generatedAt`. -/
def performFullSystemAudit (now : ℕ) (invoices : List Invoice)
    (currentStock currentValue : ℚ) : AuditReport :=
  let stockCheck := naiveStockCheck invoices
  let mismatch := epsAudit < |stockCheck - currentStock|
  let negCount := auditNegativeStockCount invoices
  let intCount := auditIntegrityCount invoices
  let issues :=
    (if mismatch then [AuditIssue.stockMismatch stockCheck currentStock] else [])
    ++ (if 0 < negCount then [AuditIssue.negativeStock negCount] else [])
    ++ (if 0 < intCount then [AuditIssue.dataIntegrity intCount] else [])
  let score : ℤ := 100 - (if mismatch then 20 else 0)
    - (if 0 < negCount then 15 else 0) - (if 0 < intCount then 10 else 0)
  { generatedAt := now, totalInvoices := invoices.length,
    dataIntegrityIssues := issues, healthScore := max 0 score,
    recalculatedStock := stockCheck, recalculatedValue := currentValue }

/-! ### Concrete transaction collections used by counterexamples and
witnesses (dates are day numbers, identifiers and timestamps are `ℕ`). -/

/-- Scenario A of the spec: ACQUIRE 100 g @ 6000 on day 1, DISPOSE 40 g on
day 5 with taxable amount 260000. -/
def scenarioA : List Invoice :=
  [{ id := 1, date := 1, createdAt := some 1, type := TxType.PURCHASE,
     partyName := "S1", quantityGrams := 100, ratePerGram := 6000,
     taxableAmount := none },
   { id := 2, date := 5, createdAt := some 2, type := TxType.SALE,
     partyName := "C1", quantityGrams := 40, ratePerGram := 6500,
     taxableAmount := some 260000 }]

/-- Scenario B of the spec (stockout): ACQUIRE 10 g @ 6000, DISPOSE 15 g. -/
def scenarioB : List Invoice :=
  [{ id := 1, date := 1, createdAt := some 1, type := TxType.PURCHASE,
     partyName := "S1", quantityGrams := 10, ratePerGram := 6000,
     taxableAmount := none },
   { id := 2, date := 2, createdAt := some 2, type := TxType.SALE,
     partyName := "C1", quantityGrams := 15, ratePerGram := 6500,
     taxableAmount := some 90000 }]

/-- Scenario B followed by a later ACQUIRE of 3 g @ 7000: after the
absorbed stockout the snapshot's signed running total is `-2`, clamped to
`0`, while the replay's batches hold 3 g. -/
def stockoutThenPurchase : List Invoice :=
  scenarioB ++
  [{ id := 3, date := 3, createdAt := some 3, type := TxType.PURCHASE,
     partyName := "S2", quantityGrams := 3, ratePerGram := 7000,
     taxableAmount := none }]

/-- A sale whose taxable amount is zero: the JS `||` fallback replaces the
zero revenue by `quantity * rate`. -/
def zeroTaxableSale : List Invoice :=
  [{ id := 1, date := 1, createdAt := some 1, type := TxType.PURCHASE,
     partyName := "S1", quantityGrams := 100, ratePerGram := 6000,
     taxableAmount := none },
   { id := 2, date := 5, createdAt := some 2, type := TxType.SALE,
     partyName := "C1", quantityGrams := 40, ratePerGram := 6500,
     taxableAmount := some 0 }]

/-- Same calendar date, no creation timestamps, input order
[SALE (id 2), PURCHASE (id 1)]: the date-only stable sort keeps the sale
first, the three-tier comparator puts the purchase (smaller id) first. -/
def sameDayPair : List Invoice :=
  [{ id := 2, date := 1, createdAt := none, type := TxType.SALE,
     partyName := "C1", quantityGrams := 5, ratePerGram := 6000,
     taxableAmount := some 30000 },
   { id := 1, date := 1, createdAt := none, type := TxType.PURCHASE,
     partyName := "S1", quantityGrams := 5, ratePerGram := 6000,
     taxableAmount := none }]

/-- One open batch of 10 g @ 6000. -/
def oneBatch10 : List InventoryBatch :=
  [{ id := 1, date := 1, originalQuantity := 10, remainingQuantity := 10,
     costPerGram := 6000, closedDate := none }]

/-- A DISPOSE of 10 + 1/20000 g (an excess of half the 1e-4 epsilon over
the 10 g held). -/
def epsilonExcessSale : Invoice :=
  { id := 2, date := 2, createdAt := some 2, type := TxType.SALE,
    partyName := "C1", quantityGrams := 10 + 1 / 20000, ratePerGram := 6500,
    taxableAmount := some 65000 }

/-- A DISPOSE of 15 g (scenario B's sale) as a single transaction. -/
def sale15 : Invoice :=
  { id := 2, date := 2, createdAt := some 2, type := TxType.SALE,
    partyName := "C1", quantityGrams := 15, ratePerGram := 6500,
    taxableAmount := some 90000 }

/-- Scenario A's annotated sale as it appears in the replay output:
COGS 40 × 6000 = 240000, profit 260000 − 240000 = 20000. -/
def scenarioASaleOut : Invoice :=
  { id := 2, date := 5, createdAt := some 2, type := TxType.SALE,
    partyName := "C1", quantityGrams := 40, ratePerGram := 6500,
    taxableAmount := some 260000, cogs := some 240000, profit := some 20000,
    fifoLog := [TraceLine.consumed 40 1 6000] }

/-! ### Predicates and aggregates used by the claim statements -/

/-- The batch invariant maintained by the replay when all transaction
quantities are positive: remaining quantity within `[0, original]`, and a
remaining below the epsilon is exactly `0` unless the batch was never
consumed from (remaining still equals the original quantity). -/
def BatchInv (b : InventoryBatch) : Prop :=
  0 ≤ b.remainingQuantity ∧ b.remainingQuantity ≤ b.originalQuantity ∧
    (b.remainingQuantity < epsReplay →
      b.remainingQuantity = 0 ∨ b.remainingQuantity = b.originalQuantity)

/-- Stock the replay's consumption loop can actually draw from: total
remaining over batches strictly above the depletion epsilon. -/
def consumableStock (bs : List InventoryBatch) : ℚ :=
  ((bs.filter (fun b => decide (epsReplay < b.remainingQuantity))).map
    (fun b => b.remainingQuantity)).sum

/-- FIFO cost of the consumable stock: remaining × unit cost summed over
batches strictly above the depletion epsilon. -/
def consumableValue (bs : List InventoryBatch) : ℚ :=
  ((bs.filter (fun b => decide (epsReplay < b.remainingQuantity))).map
    (fun b => b.remainingQuantity * b.costPerGram)).sum

/-- Total remaining over open batches (remaining > 0), the spec's notion
of "stock available in open batches". -/
def openStock (bs : List InventoryBatch) : ℚ :=
  ((bs.filter (fun b => decide (0 < b.remainingQuantity))).map
    (fun b => b.remainingQuantity)).sum

/-- Recogniser for the stockout warning trace line. -/
def isStockoutLine : TraceLine → Bool
  | TraceLine.stockout _ => true
  | _ => false

/-- Total remaining grams over active batches (remaining > 0). -/
def activeGrams (inventory : List InventoryBatch) : ℚ :=
  ((inventory.filter (fun b => decide (0 < b.remainingQuantity))).map
    (fun b => b.remainingQuantity)).sum

/-- Age-weighted remaining grams over active batches. -/
def activeAgeWeighted (now : ℚ) (inventory : List InventoryBatch) : ℚ :=
  ((inventory.filter (fun b => decide (0 < b.remainingQuantity))).map
    (fun b => (ageDays now b : ℚ) * b.remainingQuantity)).sum

/-- Sum of the four aging buckets. -/
def bucketsTotal (s : AgingStats) : ℚ :=
  s.bucket0to7 + s.bucket8to15 + s.bucket16to30 + s.bucket30plus

/-- A quantity that is a positive whole number of grams. -/
def IsPosIntQ (x : ℚ) : Prop := x.den = 1 ∧ 1 ≤ x

instance (x : ℚ) : Decidable (IsPosIntQ x) := by
  unfold IsPosIntQ; infer_instance

/-- The replay's view of the batches as snapshot pairs: the open
(nonzero-remaining) batches in order, reduced to quantity and cost. -/
def snapOf (bs : List InventoryBatch) : List SnapPair :=
  (bs.filter (fun b => decide (b.remainingQuantity ≠ 0))).map
    (fun b => { quantity := b.remainingQuantity, cost := b.costPerGram })

/-- `noStockoutAux st L = true` when, replaying `L` from batch state `st`,
every DISPOSE's consumption loop ends with leftover need at most the
epsilon — i.e. the replay never appends a stockout trace line. -/
def noStockoutAux : List InventoryBatch → List Invoice → Bool
  | _, [] => true
  | st, inv :: rest =>
    (match inv.type with
      | TxType.PURCHASE => true
      | TxType.SALE =>
          decide ((sellWalk inv.date st inv.quantityGrams).2.1 ≤ epsReplay)) &&
    noStockoutAux (processOne st inv).1 rest

/-- The replay of the given collection never hits a stockout. -/
def noStockout (txs : List Invoice) : Bool :=
  noStockoutAux [] (sortTx txs)

/-! ### Claim C10 -/

/-- Claim C10: the audit report's `recalculatedValue` is exactly the
`currentValue` argument supplied by the caller, never an independently
recomputed figure; only the stock quantity (`recalculatedStock`) is
recomputed from the raw transactions, as the naive signed total. -/
theorem c10_recalculated_value_is_passthrough :
    ∀ (now : ℕ) (invoices : List Invoice) (currentStock currentValue : ℚ),
      (performFullSystemAudit now invoices currentStock currentValue).recalculatedValue
          = currentValue ∧
      (performFullSystemAudit now invoices currentStock currentValue).recalculatedStock
          = naiveStockCheck invoices := by
  intro now invoices currentStock currentValue
  exact ⟨rfl, rfl⟩

/-! ### Claim C6 -/

/-- Claim C6: two runs of the Replay Engine on the same unmodified input
collection produce identical annotated transaction lists and identical
batch lists (each invocation starts from the empty batch state and builds
batches only from the input's ACQUIRE records, see `recalculateAllData`). -/
theorem c6_replay_deterministic :
    ∀ (txs : List Invoice) (run1 run2 : RecalcResult),
      run1 = recalculateAllData txs → run2 = recalculateAllData txs →
      run1.updatedInvoices = run2.updatedInvoices ∧
      run1.updatedInventory = run2.updatedInventory := by
  intro txs run1 run2 h1 h2
  subst h1; subst h2
  exact ⟨rfl, rfl⟩

/-- Witness for C6 at scenario A. -/
theorem c6_replay_deterministic_witness :
    (recalculateAllData scenarioA).updatedInvoices
        = (recalculateAllData scenarioA).updatedInvoices ∧
    (recalculateAllData scenarioA).updatedInventory
        = (recalculateAllData scenarioA).updatedInventory :=
  c6_replay_deterministic scenarioA _ _ rfl rfl

/-! ### Claim C8 -/

/-- Claim C8: the turnover computation returns a turnover ratio of 0
whenever the average inventory value is not positive, and an average
days-to-sell of 0 whenever the turnover ratio is not positive (in this
exact-arithmetic model the guarded divisions are the whole content of the
source's NaN/Infinity avoidance). -/
theorem c8_turnover_division_guards :
    ∀ (invoices : List Invoice) (startDate endDate : ℕ),
      ((calculateTurnoverStats invoices startDate endDate).avgInventoryValue ≤ 0 →
        (calculateTurnoverStats invoices startDate endDate).turnoverRatio = 0) ∧
      ((calculateTurnoverStats invoices startDate endDate).turnoverRatio ≤ 0 →
        (calculateTurnoverStats invoices startDate endDate).avgDaysToSell = 0) := by
  intro invs sd ed
  simp only [calculateTurnoverStats]
  constructor
  · intro h
    rw [if_neg (not_lt.mpr h)]
  · intro h
    rw [if_neg (not_lt.mpr h)]

/-- Witness for C8: the empty collection has average inventory value 0,
so both guarded outputs are 0. -/
theorem c8_turnover_division_guards_witness :
    (calculateTurnoverStats [] 1 1).turnoverRatio = 0 ∧
    (calculateTurnoverStats [] 1 1).avgDaysToSell = 0 :=
  ⟨(c8_turnover_division_guards [] 1 1).1 (by with_unfolding_all decide),
   (c8_turnover_division_guards [] 1 1).2 (by with_unfolding_all decide)⟩

/-! ### Claim C4 -/

/-- Counterexample to claim C4 as stated: the audit's negative-stock walk
does NOT follow the three-tier comparator.  On `sameDayPair` (a same-day
SALE listed before the PURCHASE, ids reversed) the audit's date-only
stable sort keeps the sale first and counts one dip, while the three-tier
order puts the purchase first and counts none. -/
theorem c4_counterexample_ordering :
    ¬ (∀ invoices : List Invoice,
        auditNegativeStockCount invoices = negDipCount 0 0 (sortTx invoices)) :=
  fun h => absurd (h sameDayPair) (by with_unfolding_all decide)

/-- Claim C4 amended: the audit's negative-stock check walks the
transactions sorted by calendar date only (the stable date-only sort of
`performFullSystemAudit`, not the three-tier Ordering Module comparator),
and the report flags a negative-stock issue exactly when that walk's count
of dips below `-1e-4` is positive. -/
theorem c4_audit_negative_stock_order :
    ∀ (now : ℕ) (invoices : List Invoice) (currentStock currentValue : ℚ),
      auditNegativeStockCount invoices = negDipCount 0 0 (sortByDate invoices) ∧
      (0 < auditNegativeStockCount invoices ↔
        ∃ n, AuditIssue.negativeStock n ∈
          (performFullSystemAudit now invoices currentStock currentValue).dataIntegrityIssues) := by
  intro now invs stock value
  refine ⟨rfl, ?_⟩
  simp only [performFullSystemAudit]
  constructor
  · intro h
    exact ⟨auditNegativeStockCount invs, by simp [if_pos h]⟩
  · rintro ⟨n, hn⟩
    by_contra hneg
    rw [if_neg hneg] at hn
    simp only [List.mem_append, List.mem_singleton] at hn
    rcases hn with (h | h) | h
    · split at h <;> simp_all
    · simp at h
    · split at h <;> simp_all

/-- Witness for C4 (amended) at the same-day pair. -/
theorem c4_audit_negative_stock_order_witness :
    auditNegativeStockCount sameDayPair = negDipCount 0 0 (sortByDate sameDayPair) :=
  (c4_audit_negative_stock_order 0 sameDayPair 0 0).1

/-! ### Claim C2 -/

/-- Every SALE in the replay fold's output carries
`profit = effectiveRevenue - cogs`, where `effectiveRevenue` is the JS
`taxableAmount || quantity * rate` fallback. -/
theorem replayAux_sale_profit :
    ∀ (L : List Invoice) (st : List InventoryBatch),
      ∀ a ∈ (replayAux st L).1, a.type = TxType.SALE →
        ∃ c, a.cogs = some c ∧ a.profit = some (effectiveRevenue a - c) := by
  intro L
  induction L with
  | nil => intro st a ha; simp [replayAux] at ha
  | cons inv rest ih =>
    intro st a ha hSale
    simp only [replayAux, List.mem_cons] at ha
    rcases ha with rfl | ha
    · cases h : inv.type with
      | PURCHASE =>
        simp only [processOne, h] at hSale
        exact absurd hSale (by simp)
      | SALE =>
        simp only [processOne, h]
        exact ⟨(sellWalk inv.date st inv.quantityGrams).2.2.1, rfl, rfl⟩
    · exact ih (processOne st inv).1 a ha hSale

/-- Counterexample to claim C2 as stated: profit is NOT always
`taxableAmount - cogs`.  In `zeroTaxableSale` the sale carries
`taxableAmount = some 0`; the JS `||` treats 0 as missing, so the engine
computes `40 * 6500 - 240000 = 20000` instead of `0 - 240000`. -/
theorem c2_counterexample_zero_taxable :
    ¬ (∀ a ∈ (recalculateAllData zeroTaxableSale).updatedInvoices,
        a.type = TxType.SALE → a.taxableAmount.isSome = true →
        a.profit = some (a.taxableAmount.getD 0 - a.cogs.getD 0)) := by
  with_unfolding_all decide

/-- Claim C2 amended: for every DISPOSE in the Replay Engine's output,
profit = revenue - FIFO cost-of-goods-sold, where the revenue is the
taxable amount when that field is present and nonzero, and
`quantity * rate` when it is absent or zero (the JS `||` fallback). -/
theorem c2_sale_profit_formula :
    ∀ (txs : List Invoice),
      ∀ a ∈ (recalculateAllData txs).updatedInvoices, a.type = TxType.SALE →
        ∃ c, a.cogs = some c ∧ a.profit = some (effectiveRevenue a - c) := by
  intro txs
  exact replayAux_sale_profit (sortTx txs) []

/-- Witness for C2 (amended) at scenario A's annotated sale. -/
theorem c2_sale_profit_formula_witness :
    ∃ c, scenarioASaleOut.cogs = some c ∧
      scenarioASaleOut.profit = some (effectiveRevenue scenarioASaleOut - c) :=
  c2_sale_profit_formula scenarioA scenarioASaleOut
    (by
      norm_num [recalculateAllData, sortTx, stableSortBy, insertBy, txBefore,
        replayAux, processOne, sellWalk, newBatchOf, effectiveRevenue, epsReplay,
        scenarioA, scenarioASaleOut])
    rfl

/-! ### Claim C5 -/

/-- Membership is invariant under `insertBy`. -/
theorem mem_insertBy {lt : α → α → Bool} {x a : α} :
    ∀ {l : List α}, a ∈ insertBy lt x l ↔ a = x ∨ a ∈ l := by
  intro l
  induction l with
  | nil => simp [insertBy]
  | cons y ys ih =>
    rw [insertBy]
    by_cases h : lt y x
    · rw [if_pos h]
      simp only [List.mem_cons, ih]
      tauto
    · rw [if_neg h]
      simp [List.mem_cons]

/-- Membership is invariant under the stable sort. -/
theorem mem_stableSortBy {lt : α → α → Bool} {a : α} :
    ∀ {l : List α}, a ∈ stableSortBy lt l ↔ a ∈ l := by
  intro l
  induction l with
  | nil => simp [stableSortBy]
  | cons y ys ih =>
    show a ∈ insertBy lt y (stableSortBy lt ys) ↔ _
    rw [mem_insertBy]
    simp only [List.mem_cons, ih]

/-- The consumption loop preserves the batch invariant whenever the
quantity to dispose is non-negative. -/
theorem sellWalk_batchInv (saleDate : ℕ) :
    ∀ (bs : List InventoryBatch) (need : ℚ), 0 ≤ need →
      (∀ b ∈ bs, BatchInv b) →
      ∀ b ∈ (sellWalk saleDate bs need).1, BatchInv b := by
  intro bs
  induction bs with
  | nil => intro need _ h b hb; simp [sellWalk] at hb
  | cons hd rest ih =>
    intro need hneed h b hb
    rw [sellWalk] at hb
    by_cases h0 : need ≤ 0
    · rw [if_pos h0] at hb
      exact h b hb
    · rw [if_neg h0] at hb
      have hhd := h hd (by simp)
      by_cases h1 : epsReplay < hd.remainingQuantity
      · rw [if_pos h1] at hb
        simp only [List.mem_cons] at hb
        rcases hb with rfl | hb
        · by_cases h2 :
            hd.remainingQuantity - min hd.remainingQuantity need < epsReplay
          · rw [if_pos h2]
            refine ⟨le_refl 0, ?_, fun _ => Or.inl rfl⟩
            exact le_trans hhd.1 hhd.2.1
          · rw [if_neg h2]
            have htake : 0 ≤ min hd.remainingQuantity need :=
              le_min (le_of_lt (lt_trans (by norm_num [epsReplay]) h1))
                (le_of_not_le h0)
            refine ⟨?_, ?_, fun hc => absurd hc h2⟩
            · simp only
              have := min_le_left hd.remainingQuantity need
              linarith
            · simp only
              have := hhd.2.1
              linarith
        · exact ih (need - min hd.remainingQuantity need)
            (by
              have := min_le_right hd.remainingQuantity need
              linarith)
            (fun x hx => h x (List.mem_cons_of_mem hd hx)) b hb
      · rw [if_neg h1] at hb
        simp only [List.mem_cons] at hb
        rcases hb with rfl | hb
        · exact hhd
        · exact ih need hneed (fun x hx => h x (List.mem_cons_of_mem hd hx)) b hb

/-- The replay fold preserves the batch invariant when all quantities are
positive. -/
theorem replayAux_batchInv :
    ∀ (L : List Invoice) (st : List InventoryBatch),
      (∀ t ∈ L, 0 < t.quantityGrams) → (∀ b ∈ st, BatchInv b) →
      ∀ b ∈ (replayAux st L).2, BatchInv b := by
  intro L
  induction L with
  | nil => intro st _ hst b hb; exact hst b (by simpa [replayAux] using hb)
  | cons inv rest ih =>
    intro st hq hst b hb
    simp only [replayAux] at hb
    refine ih (processOne st inv).1
      (fun t ht => hq t (List.mem_cons_of_mem inv ht)) ?_ b hb
    intro x hx
    cases h : inv.type with
    | PURCHASE =>
      simp only [processOne, h, List.mem_append, List.mem_singleton] at hx
      rcases hx with hx | rfl
      · exact hst x hx
      · have hq0 := hq inv (List.mem_cons_self inv rest)
        exact ⟨le_of_lt hq0, le_refl _, fun _ => Or.inr rfl⟩
    | SALE =>
      simp only [processOne, h] at hx
      exact sellWalk_batchInv inv.date st inv.quantityGrams
        (le_of_lt (hq inv (List.mem_cons_self inv rest))) hst x hx

/-- Claim C5: when all transaction quantities are positive, every batch in
the Replay Engine's output has remaining quantity within
`[0, original quantity]` (hence the total remaining stock is
non-negative), and a remaining quantity that was consumed down below the
1e-4 epsilon is exactly zero: a remaining below the epsilon is either zero
or the untouched original quantity. -/
theorem c5_batch_remaining_bounds :
    ∀ (txs : List Invoice), (∀ t ∈ txs, 0 < t.quantityGrams) →
      (∀ b ∈ (recalculateAllData txs).updatedInventory,
        0 ≤ b.remainingQuantity ∧ b.remainingQuantity ≤ b.originalQuantity ∧
        (b.remainingQuantity < epsReplay →
          b.remainingQuantity = 0 ∨ b.remainingQuantity = b.originalQuantity)) ∧
      0 ≤ batchStockSum (recalculateAllData txs).updatedInventory := by
  intro txs hq
  have hall : ∀ b ∈ (recalculateAllData txs).updatedInventory, BatchInv b := by
    intro b hb
    exact replayAux_batchInv (sortTx txs) []
      (fun t ht => hq t (mem_stableSortBy.mp ht)) (by simp) b hb
  refine ⟨hall, ?_⟩
  refine List.sum_nonneg ?_
  intro x hx
  simp only [List.mem_map] at hx
  rcases hx with ⟨b, hb, rfl⟩
  exact (hall b hb).1

/-- Witness for C5 at scenario B (where the stockout drives a batch to
exactly zero). -/
theorem c5_batch_remaining_bounds_witness :
    (∀ t ∈ scenarioB, 0 < t.quantityGrams) ∧
    0 ≤ batchStockSum (recalculateAllData scenarioB).updatedInventory :=
  ⟨by with_unfolding_all decide,
   (c5_batch_remaining_bounds scenarioB (by with_unfolding_all decide)).2⟩


/-! ### Claim C7 -/

/-- Running invariant of the aging accumulation: the bucket sums, the
stock total and the weighted total each advance by the active-batch
aggregates of the processed list. -/
theorem agingFold_invariant (now : ℚ) :
    ∀ (l : List InventoryBatch) (acc : AgingAcc),
      ((l.foldl (agingStep now) acc).b0 + (l.foldl (agingStep now) acc).b8 +
        (l.foldl (agingStep now) acc).b16 + (l.foldl (agingStep now) acc).b30
          = acc.b0 + acc.b8 + acc.b16 + acc.b30 + activeGrams l) ∧
      ((l.foldl (agingStep now) acc).totalStock = acc.totalStock + activeGrams l) ∧
      ((l.foldl (agingStep now) acc).totalDaysWeighted
          = acc.totalDaysWeighted + activeAgeWeighted now l) := by
  intro l
  induction l with
  | nil => intro acc; simp [activeGrams, activeAgeWeighted]
  | cons b rest ih =>
    intro acc
    by_cases hb : b.remainingQuantity ≤ 0
    · have hstep : agingStep now acc b = acc := by rw [agingStep, if_pos hb]
      have hfilter : decide (0 < b.remainingQuantity) = false := by
        simp [not_lt.mpr hb]
      simp only [List.foldl_cons, hstep]
      have h1 : activeGrams (b :: rest) = activeGrams rest := by
        simp [activeGrams, List.filter_cons, hfilter]
      have h2 : activeAgeWeighted now (b :: rest) = activeAgeWeighted now rest := by
        simp [activeAgeWeighted, List.filter_cons, hfilter]
      rw [h1, h2]
      exact ih acc
    · have hpos : 0 < b.remainingQuantity := lt_of_not_le hb
      have hfilter : decide (0 < b.remainingQuantity) = true := by simp [hpos]
      have h1 : activeGrams (b :: rest)
          = b.remainingQuantity + activeGrams rest := by
        simp [activeGrams, List.filter_cons, hfilter]
      have h2 : activeAgeWeighted now (b :: rest)
          = (ageDays now b : ℚ) * b.remainingQuantity
              + activeAgeWeighted now rest := by
        simp [activeAgeWeighted, List.filter_cons, hfilter]
      simp only [List.foldl_cons]
      rcases ih (agingStep now acc b) with ⟨ih1, ih2, ih3⟩
      rw [ih1, ih2, ih3, h1, h2]
      have hstep :
          (agingStep now acc b).b0 + (agingStep now acc b).b8 +
            (agingStep now acc b).b16 + (agingStep now acc b).b30
              = acc.b0 + acc.b8 + acc.b16 + acc.b30 + b.remainingQuantity ∧
          (agingStep now acc b).totalStock
              = acc.totalStock + b.remainingQuantity ∧
          (agingStep now acc b).totalDaysWeighted
              = acc.totalDaysWeighted + (ageDays now b : ℚ) * b.remainingQuantity := by
        rw [agingStep, if_neg hb]
        by_cases hd7 : ageDays now b ≤ 7
        · rw [if_pos hd7]; refine ⟨by ring, rfl, rfl⟩
        · rw [if_neg hd7]
          by_cases hd15 : ageDays now b ≤ 15
          · rw [if_pos hd15]; refine ⟨by ring, rfl, rfl⟩
          · rw [if_neg hd15]
            by_cases hd30 : ageDays now b ≤ 30
            · rw [if_pos hd30]; refine ⟨by ring, rfl, rfl⟩
            · rw [if_neg hd30]; refine ⟨by ring, rfl, rfl⟩
      rcases hstep with ⟨hs1, hs2, hs3⟩
      rw [hs1, hs2, hs3]
      refine ⟨by ring, by ring, by ring⟩

/-- Claim C7: the aging buckets partition the active batches (the four
bucket totals sum to the total active remaining grams), and when any
active stock exists the reported weighted average age is the
grams-weighted mean of the per-batch ceiling day ages. -/
theorem c7_aging_partition_and_average :
    ∀ (now : ℚ) (inventory : List InventoryBatch),
      bucketsTotal (calculateStockAging now inventory) = activeGrams inventory ∧
      (0 < activeGrams inventory →
        (calculateStockAging now inventory).weightedAvgDays
          = activeAgeWeighted now inventory / activeGrams inventory) := by
  intro now inventory
  rcases agingFold_invariant now inventory ⟨0, 0, 0, 0, 0, 0⟩ with ⟨h1, h2, h3⟩
  constructor
  · simp only [bucketsTotal, calculateStockAging]
    rw [h1]
    ring
  · intro hpos
    simp only [calculateStockAging]
    rw [h2, h3]
    simp only [zero_add]
    rw [if_pos hpos]

/-- Witness for C7 on a single active batch. -/
theorem c7_aging_partition_and_average_witness :
    bucketsTotal (calculateStockAging msPerDay oneBatch10)
        = activeGrams oneBatch10 ∧
    (calculateStockAging msPerDay oneBatch10).weightedAvgDays
        = activeAgeWeighted msPerDay oneBatch10 / activeGrams oneBatch10 :=
  ⟨(c7_aging_partition_and_average msPerDay oneBatch10).1,
   (c7_aging_partition_and_average msPerDay oneBatch10).2
     (by with_unfolding_all decide)⟩


/-! ### Claim C3 -/

/-- The consumable stock is a sum of strictly-positive remainders, hence
non-negative. -/
theorem consumableStock_nonneg :
    ∀ bs : List InventoryBatch, 0 ≤ consumableStock bs := by
  intro bs
  refine List.sum_nonneg ?_
  intro x hx
  simp only [List.mem_map, List.mem_filter] at hx
  rcases hx with ⟨b, ⟨_, hb⟩, rfl⟩
  have : epsReplay < b.remainingQuantity := of_decide_eq_true hb
  linarith [show (0:ℚ) < epsReplay by norm_num [epsReplay]]

/-- The consumption loop under a deep stockout (need exceeding the
consumable stock by more than the epsilon): every consumable batch is
drained in full, COGS is exactly the consumable value, the leftover need
is the exact shortfall, and no remaining quantity goes negative. -/
theorem sellWalk_stockout (saleDate : ℕ) :
    ∀ (bs : List InventoryBatch) (q : ℚ),
      consumableStock bs + epsReplay < q →
      (∀ b ∈ bs, 0 ≤ b.remainingQuantity) →
      (sellWalk saleDate bs q).2.2.1 = consumableValue bs ∧
      (sellWalk saleDate bs q).2.1 = q - consumableStock bs ∧
      ∀ b ∈ (sellWalk saleDate bs q).1, 0 ≤ b.remainingQuantity := by
  intro bs
  induction bs with
  | nil =>
    intro q _ _
    refine ⟨rfl, ?_, by simp [sellWalk]⟩
    simp [sellWalk, consumableStock]
  | cons hd rest ih =>
    intro q hq hnn
    have heps : (0:ℚ) < epsReplay := by norm_num [epsReplay]
    have hqpos : 0 < q :=
      lt_of_le_of_lt (by linarith [consumableStock_nonneg (hd :: rest)]) hq
    rw [sellWalk, if_neg (not_le.mpr hqpos)]
    by_cases h1 : epsReplay < hd.remainingQuantity
    · rw [if_pos h1]
      dsimp only
      have hcS : consumableStock (hd :: rest)
          = hd.remainingQuantity + consumableStock rest := by
        simp [consumableStock, List.filter_cons, h1]
      have hcV : consumableValue (hd :: rest)
          = hd.remainingQuantity * hd.costPerGram + consumableValue rest := by
        simp [consumableValue, List.filter_cons, h1]
      have hrest : consumableStock rest + epsReplay < q - hd.remainingQuantity := by
        rw [hcS] at hq; linarith
      have htake : min hd.remainingQuantity q = hd.remainingQuantity := by
        refine min_eq_left ?_
        have := consumableStock_nonneg rest
        rw [hcS] at hq
        linarith
      rw [htake]
      have hcond : hd.remainingQuantity - hd.remainingQuantity < epsReplay := by
        simpa using heps
      rw [if_pos hcond]
      rcases ih (q - hd.remainingQuantity) hrest
        (fun b hb => hnn b (List.mem_cons_of_mem hd hb)) with ⟨ih1, ih2, ih3⟩
      refine ⟨?_, ?_, ?_⟩
      · simp only [ih1, hcV]
      · simp only [ih2, hcS]; ring
      · intro b hb
        simp only [List.mem_cons] at hb
        rcases hb with rfl | hb
        · exact le_refl 0
        · exact ih3 b hb
    · rw [if_neg h1]
      have hcS : consumableStock (hd :: rest) = consumableStock rest := by
        simp [consumableStock, List.filter_cons, h1]
      have hcV : consumableValue (hd :: rest) = consumableValue rest := by
        simp [consumableValue, List.filter_cons, h1]
      rw [hcS] at hq
      rcases ih q hq (fun b hb => hnn b (List.mem_cons_of_mem hd hb))
        with ⟨ih1, ih2, ih3⟩
      refine ⟨by simpa [hcV] using ih1, by simpa [hcS] using ih2, ?_⟩
      intro b hb
      simp only [List.mem_cons] at hb
      rcases hb with rfl | hb
      · exact hnn b (List.mem_cons_self _ _)
      · exact ih3 b hb

/-- Counterexample to claim C3 as stated: a DISPOSE that exceeds the open
stock does NOT always leave a stockout warning.  With one open 10 g batch
and a sale of 10 + 1/20000 g (an excess of half the epsilon), the leftover
after draining the batch is 1/20000 ≤ 1e-4, so no stockout line is
appended. -/
theorem c3_counterexample_epsilon_excess :
    ¬ (∀ (bs : List InventoryBatch) (inv : Invoice), inv.type = TxType.SALE →
        openStock bs < inv.quantityGrams →
        (∀ b ∈ bs, 0 ≤ b.remainingQuantity) →
        (processOne bs inv).2.fifoLog.any isStockoutLine = true) := by
  intro h
  have hx := h oneBatch10 epsilonExcessSale rfl
    (by norm_num [openStock, oneBatch10, epsilonExcessSale])
    (by norm_num [oneBatch10])
  norm_num [processOne, epsilonExcessSale, oneBatch10, sellWalk, epsReplay,
    isStockoutLine] at hx

/-- Claim C3 amended: for every DISPOSE whose quantity exceeds, by more
than the 1e-4 epsilon, the stock held in batches above the depletion
epsilon, the Replay Engine still completes the transaction: its COGS is
exactly the full cost of the consumable stock (the excess adds zero cost),
its trace contains a stockout warning line, and no batch remaining goes
negative. -/
theorem c3_stockout_absorbed :
    ∀ (bs : List InventoryBatch) (inv : Invoice), inv.type = TxType.SALE →
      consumableStock bs + epsReplay < inv.quantityGrams →
      (∀ b ∈ bs, 0 ≤ b.remainingQuantity) →
      (processOne bs inv).2.cogs = some (consumableValue bs) ∧
      (∃ r, TraceLine.stockout r ∈ (processOne bs inv).2.fifoLog) ∧
      ∀ b ∈ (processOne bs inv).1, 0 ≤ b.remainingQuantity := by
  intro bs inv hSale hq hnn
  rcases sellWalk_stockout inv.date bs inv.quantityGrams hq hnn with ⟨h1, h2, h3⟩
  simp only [processOne, hSale]
  refine ⟨by rw [h1], ?_, h3⟩
  refine ⟨(sellWalk inv.date bs inv.quantityGrams).2.1, ?_⟩
  have hover : epsReplay < (sellWalk inv.date bs inv.quantityGrams).2.1 := by
    rw [h2]; linarith [consumableStock_nonneg bs]
  rw [if_pos hover]
  simp

/-- Witness for C3 (amended): scenario B's 15 g sale against a 10 g batch. -/
theorem c3_stockout_absorbed_witness :
    (processOne oneBatch10 sale15).2.cogs = some (consumableValue oneBatch10) ∧
    (∃ r, TraceLine.stockout r ∈ (processOne oneBatch10 sale15).2.fifoLog) ∧
    ∀ b ∈ (processOne oneBatch10 sale15).1, 0 ≤ b.remainingQuantity :=
  c3_stockout_absorbed oneBatch10 sale15 rfl
    (by norm_num [consumableStock, oneBatch10, epsReplay, sale15])
    (by norm_num [oneBatch10])


/-! ### Claim C9 -/

/-- A budget of (pair count + 1) loop-body executions always suffices for
the snapshot's consumption loop: each iteration either shifts a pair off
the list or zeroes the remaining-to-sell amount (after which the loop
condition fails).  The fueled loop therefore never exhausts its fuel and
agrees with the total function `snapConsume`. -/
theorem snapConsumeF_spec :
    ∀ (bs : List SnapPair) (rts : ℚ),
      snapConsumeF (bs.length + 1) bs rts = some (snapConsume bs rts) := by
  intro bs
  induction bs with
  | nil => intro rts; rfl
  | cons b rest ih =>
    intro rts
    rw [snapConsumeF, snapConsume]
    by_cases h : rts ≤ epsSnap
    · rw [if_pos h, if_pos h]
    · rw [if_neg h, if_neg h]
      by_cases h2 : rts < b.quantity
      · rw [if_pos h2, if_pos h2]
        have h0 : (0:ℚ) ≤ epsSnap := by norm_num [epsSnap]
        simp [snapConsumeF, h0]
      · rw [if_neg h2, if_neg h2]
        exact ih (rts - b.quantity)

/-- The fueled snapshot step always returns a result. -/
theorem snapStepF_spec :
    ∀ (st : List SnapPair × ℚ) (inv : Invoice),
      snapStepF st inv = some (snapStep st inv) := by
  intro st inv
  cases h : inv.type with
  | PURCHASE => simp [snapStepF, snapStep, h]
  | SALE => simp [snapStepF, snapStep, h, snapConsumeF_spec]

/-- The fueled snapshot fold always returns a result. -/
theorem snapFoldF_spec :
    ∀ (L : List Invoice) (st : List SnapPair × ℚ),
      L.foldl (fun acc inv => acc.bind (fun s => snapStepF s inv)) (some st)
        = some (L.foldl snapStep st) := by
  intro L
  induction L with
  | nil => intro st; rfl
  | cons inv rest ih =>
    intro st
    simp only [List.foldl_cons]
    have h1 : ((some st).bind fun s => snapStepF s inv) = some (snapStep st inv) := by
      rw [Option.some_bind, snapStepF_spec]
    rw [h1]
    exact ih (snapStep st inv)

/-- The replay annotates exactly one output transaction per input
transaction. -/
theorem replayAux_length :
    ∀ (L : List Invoice) (st : List InventoryBatch),
      (replayAux st L).1.length = L.length := by
  intro L
  induction L with
  | nil => intro st; rfl
  | cons inv rest ih =>
    intro st
    simp only [replayAux, List.length_cons, ih]

/-- Inserting grows the length by one. -/
theorem length_insertBy {lt : α → α → Bool} (x : α) :
    ∀ l : List α, (insertBy lt x l).length = l.length + 1 := by
  intro l
  induction l with
  | nil => rfl
  | cons y ys ih =>
    rw [insertBy]
    by_cases h : lt y x
    · rw [if_pos h]; simp [ih]
    · rw [if_neg h]; rfl

/-- The stable sort preserves length. -/
theorem length_stableSortBy {lt : α → α → Bool} :
    ∀ l : List α, (stableSortBy lt l).length = l.length := by
  intro l
  induction l with
  | nil => rfl
  | cons y ys ih =>
    show (insertBy lt y (stableSortBy lt ys)).length = _
    rw [length_insertBy, ih, List.length_cons]

/-- Claim C9: both engines terminate with a result on every finite input
collection (no hypothesis on the records, so zero and negative quantities
are covered): the fueled Snapshot Engine — whose inner loop is budgeted by
the open-batch count plus one, per the strict-decrease argument of
`snapConsumeF_spec` — always returns `some`, agreeing with the total
`getInventorySnapshot`, and the Replay Engine returns an annotated
transaction per input transaction. -/
theorem c9_engines_total :
    ∀ (invoices : List Invoice) (targetDate : ℕ),
      getInventorySnapshotF invoices targetDate
          = some (getInventorySnapshot invoices targetDate) ∧
      (recalculateAllData invoices).updatedInvoices.length = invoices.length := by
  intro invs d
  constructor
  · simp only [getInventorySnapshotF]
    rw [snapFoldF_spec]
    rfl
  · rw [recalculateAllData]
    show (replayAux [] (sortTx invs)).1.length = _
    rw [replayAux_length, sortTx, length_stableSortBy]


/-! ### Claim C1 -/

/-- Counterexample to claim C1 as stated: the snapshot at the latest
transaction date is NOT always equal to the replay's live totals.  On
`stockoutThenPurchase` (buy 10 g, sell 15 g — absorbed stockout — then buy
3 g) the snapshot's signed running total is `10 - 15 + 3 = -2`, clamped to
grams `0`, while the replay's batches hold `0 + 3 = 3` g. -/
theorem c1_counterexample_stockout_then_purchase :
    ¬ (∀ (txs : List Invoice) (cutoff : ℕ), (∀ t ∈ txs, t.date ≤ cutoff) →
        (getInventorySnapshot txs cutoff).grams
            = batchStockSum (recalculateAllData txs).updatedInventory ∧
        (getInventorySnapshot txs cutoff).value
            = batchValueSum (recalculateAllData txs).updatedInventory) := by
  intro h
  have hx := (h stockoutThenPurchase 3 (by with_unfolding_all decide)).1
  have h1 : (getInventorySnapshot stockoutThenPurchase 3).grams = 0 := by
    with_unfolding_all decide
  have h2 : batchStockSum (recalculateAllData stockoutThenPurchase).updatedInventory
      = 3 := by
    with_unfolding_all decide
  rw [h1, h2] at hx
  norm_num at hx

/-- A non-positive disposal need leaves the batch list untouched. -/
theorem sellWalk_nonpos (saleDate : ℕ) :
    ∀ (bs : List InventoryBatch) (need : ℚ), need ≤ 0 →
      sellWalk saleDate bs need = (bs, need, 0, []) := by
  intro bs need h
  cases bs with
  | nil => rw [sellWalk]
  | cons b rest => rw [sellWalk, if_pos h]

/-- A remaining-to-sell at most the snapshot epsilon consumes nothing. -/
theorem snapConsume_small :
    ∀ (sp : List SnapPair) (rts : ℚ), rts ≤ epsSnap → snapConsume sp rts = sp := by
  intro sp rts h
  cases sp with
  | nil => rw [snapConsume]
  | cons b rest => rw [snapConsume, if_pos h]

/-- A positive whole-gram quantity is a natural number at least 1. -/
theorem isPosIntQ_exists {x : ℚ} (h : IsPosIntQ x) :
    ∃ n : ℕ, x = (n : ℚ) ∧ 1 ≤ n := by
  rcases h with ⟨hden, hone⟩
  refine ⟨x.num.toNat, ?_, ?_⟩
  · have hx : ((x.num : ℚ)) = x := Rat.coe_int_num_of_den_eq_one hden
    have hpos : 0 ≤ x.num := by
      have : (0:ℚ) ≤ x := le_trans (by norm_num) hone
      exact Rat.num_nonneg.mpr this
    rw [← hx]
    norm_cast
    omega
  · have hx : ((x.num : ℚ)) = x := Rat.coe_int_num_of_den_eq_one hden
    have : (1:ℚ) ≤ (x.num : ℚ) := by rw [hx]; exact hone
    have h1 : (1:ℤ) ≤ x.num := by exact_mod_cast this
    omega

/-- Stock of the empty batch list. -/
theorem batchStockSum_nil : batchStockSum [] = 0 := rfl

/-- Stock of a cons. -/
theorem batchStockSum_cons (b : InventoryBatch) (rest : List InventoryBatch) :
    batchStockSum (b :: rest) = b.remainingQuantity + batchStockSum rest := by
  simp [batchStockSum]

/-- Stock of an append. -/
theorem batchStockSum_append (l1 l2 : List InventoryBatch) :
    batchStockSum (l1 ++ l2) = batchStockSum l1 + batchStockSum l2 := by
  simp [batchStockSum]

/-- A sum of natural-valued remainders is natural-valued. -/
theorem batchStockSum_nat :
    ∀ (bs : List InventoryBatch),
      (∀ b ∈ bs, ∃ n : ℕ, b.remainingQuantity = (n : ℚ)) →
      ∃ N : ℕ, batchStockSum bs = (N : ℚ) := by
  intro bs
  induction bs with
  | nil => intro _; exact ⟨0, rfl⟩
  | cons b rest ih =>
    intro h
    rcases h b (List.mem_cons_self _ _) with ⟨n, hn⟩
    rcases ih (fun x hx => h x (List.mem_cons_of_mem _ hx)) with ⟨N, hN⟩
    exact ⟨n + N, by rw [batchStockSum_cons, hn, hN]; push_cast; ring⟩

/-- A sum of non-negative remainders is non-negative. -/
theorem batchStockSum_nonneg :
    ∀ (bs : List InventoryBatch),
      (∀ b ∈ bs, 0 ≤ b.remainingQuantity) → 0 ≤ batchStockSum bs := by
  intro bs h
  refine List.sum_nonneg ?_
  intro x hx
  simp only [List.mem_map] at hx
  rcases hx with ⟨b, hb, rfl⟩
  exact h b hb

/-- The consumption loop can consume at most the total remaining stock,
so the leftover need is at least the shortfall. -/
theorem sellWalk_leftover_lb (saleDate : ℕ) :
    ∀ (bs : List InventoryBatch) (q : ℚ),
      (∀ b ∈ bs, 0 ≤ b.remainingQuantity) →
      q - batchStockSum bs ≤ (sellWalk saleDate bs q).2.1 := by
  intro bs
  induction bs with
  | nil => intro q _; simp [sellWalk, batchStockSum]
  | cons hd rest ih =>
    intro q hnn
    have hhd := hnn hd (List.mem_cons_self _ _)
    have hrest : ∀ b ∈ rest, 0 ≤ b.remainingQuantity :=
      fun b hb => hnn b (List.mem_cons_of_mem _ hb)
    rw [sellWalk]
    by_cases h0 : q ≤ 0
    · rw [if_pos h0]
      have := batchStockSum_nonneg (hd :: rest) hnn
      dsimp only
      linarith
    · rw [if_neg h0]
      by_cases h1 : epsReplay < hd.remainingQuantity
      · rw [if_pos h1]
        dsimp only
        have := ih (q - min hd.remainingQuantity hd.remainingQuantity) hrest
        have hih := ih (q - min hd.remainingQuantity q) hrest
        rw [batchStockSum_cons]
        have hmin : min hd.remainingQuantity q ≤ hd.remainingQuantity :=
          min_le_left _ _
        linarith
      · rw [if_neg h1]
        dsimp only
        have hih := ih q hrest
        rw [batchStockSum_cons]
        linarith

/-- Snapshot view of the empty batch list. -/
theorem snapOf_nil : snapOf [] = [] := rfl

/-- A zero-remaining batch disappears from the snapshot view. -/
theorem snapOf_cons_zero {b : InventoryBatch} (rest : List InventoryBatch)
    (h : b.remainingQuantity = 0) : snapOf (b :: rest) = snapOf rest := by
  simp [snapOf, List.filter_cons, h]

/-- A nonzero-remaining batch heads the snapshot view. -/
theorem snapOf_cons_ne {b : InventoryBatch} (rest : List InventoryBatch)
    (h : b.remainingQuantity ≠ 0) :
    snapOf (b :: rest)
      = { quantity := b.remainingQuantity, cost := b.costPerGram } :: snapOf rest := by
  simp [snapOf, List.filter_cons, h]

/-- Coupling of one DISPOSE between the two engines, under whole-gram
remainders and sufficient stock: the replay's consumption loop satisfies
the need exactly, decreases the stock total by the disposed quantity,
transforms the batch list exactly as the snapshot's `snapConsume`
transforms its pair-list view, and keeps remainders whole. -/
theorem sellWalk_couple (saleDate : ℕ) :
    ∀ (bs : List InventoryBatch) (q : ℚ) (m : ℕ),
      q = (m : ℚ) →
      (∀ b ∈ bs, ∃ n : ℕ, b.remainingQuantity = (n : ℚ)) →
      q ≤ batchStockSum bs →
      (sellWalk saleDate bs q).2.1 = 0 ∧
      batchStockSum (sellWalk saleDate bs q).1 = batchStockSum bs - q ∧
      snapOf (sellWalk saleDate bs q).1 = snapConsume (snapOf bs) q ∧
      (∀ b ∈ (sellWalk saleDate bs q).1, ∃ n : ℕ, b.remainingQuantity = (n : ℚ)) := by
  intro bs
  induction bs with
  | nil =>
    intro q m hq _ hsum
    have hm : m = 0 := by
      have h : (m : ℚ) ≤ 0 := by rw [← hq]; simpa [batchStockSum] using hsum
      have h2 : m ≤ 0 := by exact_mod_cast h
      omega
    subst hq
    rw [hm]
    refine ⟨by simp [sellWalk], by simp [sellWalk, batchStockSum], ?_, by simp [sellWalk]⟩
    rw [show (sellWalk saleDate [] ((0:ℕ):ℚ)).1 = [] from by simp [sellWalk]]
    rw [snapOf_nil, snapConsume]
  | cons hd rest ih =>
    intro q m hq hnat hsum
    have hhd := hnat hd (List.mem_cons_self _ _)
    rcases hhd with ⟨n, hn⟩
    have hnatrest : ∀ b ∈ rest, ∃ k : ℕ, b.remainingQuantity = (k : ℚ) :=
      fun b hb => hnat b (List.mem_cons_of_mem _ hb)
    by_cases h0 : q ≤ 0
    · have hm : m = 0 := by
        have h : (m : ℚ) ≤ 0 := hq ▸ h0
        have h2 : m ≤ 0 := by exact_mod_cast h
        omega
      have hq0 : q = 0 := by rw [hq, hm]; norm_num
      rw [sellWalk, if_pos h0]
      refine ⟨hq0, by dsimp only; rw [hq0]; ring, ?_, hnat⟩
      dsimp only
      rw [snapConsume_small _ q (by rw [hq0]; norm_num [epsSnap])]
    · have h0' : 0 < q := lt_of_not_le h0
      have hm1 : 1 ≤ m := by
        by_contra hc
        push_neg at hc
        interval_cases m
        rw [hq] at h0'
        norm_num at h0'
      have hq1 : (1:ℚ) ≤ q := by rw [hq]; exact_mod_cast hm1
      by_cases h1 : epsReplay < hd.remainingQuantity
      · have hn1 : 1 ≤ n := by
          by_contra hc
          push_neg at hc
          interval_cases n
          rw [hn] at h1
          norm_num [epsReplay] at h1
        have hrem1 : (1:ℚ) ≤ hd.remainingQuantity := by
          rw [hn]; exact_mod_cast hn1
        have hremne : hd.remainingQuantity ≠ 0 := by linarith
        have hsnapcons := snapOf_cons_ne rest hremne
        rw [sellWalk, if_neg h0, if_pos h1]
        dsimp only
        by_cases h2 : q < hd.remainingQuantity
        · -- partial consumption of the head batch
          have hmn : m < n := by
            rw [hq, hn] at h2
            exact_mod_cast h2
          rw [min_eq_right (le_of_lt h2), sub_self]
          rw [sellWalk_nonpos saleDate rest 0 (le_refl 0)]
          have hremsub : hd.remainingQuantity - q = ((n - m : ℕ) : ℚ) := by
            rw [hn, hq]
            push_cast [Nat.cast_sub (le_of_lt hmn)]
            ring
          have hsub1 : (1:ℚ) ≤ hd.remainingQuantity - q := by
            rw [hremsub]
            have : 1 ≤ n - m := by omega
            exact_mod_cast this
          have hnosnap : ¬ (hd.remainingQuantity - q < epsReplay) := by
            push_neg
            refine le_trans (by norm_num [epsReplay]) hsub1
          rw [if_neg hnosnap]
          refine ⟨rfl, ?_, ?_, ?_⟩
          · rw [batchStockSum_cons, batchStockSum_cons]
            dsimp only
            ring
          · have hsubne : hd.remainingQuantity - q ≠ 0 := by linarith
            rw [snapOf_cons_ne rest hsubne, hsnapcons, snapConsume,
              if_neg (by push_neg; exact lt_of_lt_of_le (by norm_num [epsSnap]) hq1),
              if_pos h2]
          · intro b hb
            simp only [List.mem_cons] at hb
            rcases hb with rfl | hb
            · exact ⟨n - m, hremsub⟩
            · exact hnatrest b hb
        · -- the head batch is drained in full
          have hnm : n ≤ m := by
            have : hd.remainingQuantity ≤ q := le_of_not_lt h2
            rw [hq, hn] at this
            exact_mod_cast this
          rw [min_eq_left (le_of_not_lt h2), sub_self]
          rw [if_pos (by norm_num [epsReplay] : (0:ℚ) < epsReplay)]
          have hqrem : q - hd.remainingQuantity = ((m - n : ℕ) : ℚ) := by
            rw [hn, hq]
            push_cast [Nat.cast_sub hnm]
            ring
          have hsumrest : q - hd.remainingQuantity ≤ batchStockSum rest := by
            rw [batchStockSum_cons] at hsum
            linarith
          rcases ih (q - hd.remainingQuantity) (m - n) hqrem hnatrest hsumrest
            with ⟨ih1, ih2, ih3, ih4⟩
          refine ⟨ih1, ?_, ?_, ?_⟩
          · rw [batchStockSum_cons, batchStockSum_cons, ih2]
            dsimp only
            ring
          · rw [snapOf_cons_zero _ rfl, ih3, hsnapcons, snapConsume,
              if_neg (by push_neg; exact lt_of_lt_of_le (by norm_num [epsSnap]) hq1),
              if_neg h2]
          · intro b hb
            simp only [List.mem_cons] at hb
            rcases hb with rfl | hb
            · exact ⟨0, rfl⟩
            · exact ih4 b hb
      · -- head batch below the epsilon: skipped; its remaining is 0
        have hn0 : n = 0 := by
          by_contra hc
          have h1n : 1 ≤ n := by omega
          refine h1 ?_
          rw [hn]
          have h1q : (1:ℚ) ≤ (n:ℚ) := by exact_mod_cast h1n
          exact lt_of_lt_of_le (by norm_num [epsReplay]) h1q
        have hrem0 : hd.remainingQuantity = 0 := by rw [hn, hn0]; norm_num
        rw [sellWalk, if_neg h0, if_neg h1]
        dsimp only
        have hsumrest : q ≤ batchStockSum rest := by
          rw [batchStockSum_cons, hrem0] at hsum
          linarith
        rcases ih q m hq hnatrest hsumrest with ⟨ih1, ih2, ih3, ih4⟩
        refine ⟨ih1, ?_, ?_, ?_⟩
        · rw [batchStockSum_cons, batchStockSum_cons, ih2, hrem0]
          ring
        · rw [snapOf_cons_zero _ hrem0, snapOf_cons_zero _ hrem0, ih3]
        · intro b hb
          simp only [List.mem_cons] at hb
          rcases hb with rfl | hb
          · exact ⟨0, hrem0 ▸ by norm_num⟩
          · exact ih4 b hb

/-- Value of a cons. -/
theorem batchValueSum_cons (b : InventoryBatch) (rest : List InventoryBatch) :
    batchValueSum (b :: rest)
      = b.remainingQuantity * b.costPerGram + batchValueSum rest := by
  simp [batchValueSum]

/-- The snapshot value of the replay's open batches equals the replay's
value total (zero-remaining batches contribute zero value). -/
theorem snapValue_eq :
    ∀ bs : List InventoryBatch,
      ((snapOf bs).map (fun p => p.quantity * p.cost)).sum = batchValueSum bs := by
  intro bs
  induction bs with
  | nil => rfl
  | cons b rest ih =>
    by_cases h : b.remainingQuantity = 0
    · rw [snapOf_cons_zero _ h, batchValueSum_cons, h, ih]
      ring
    · rw [snapOf_cons_ne _ h, batchValueSum_cons, List.map_cons, List.sum_cons, ih]

/-- Appending a batch with nonzero remaining appends its pair view. -/
theorem snapOf_append_batch (bs : List InventoryBatch) (b : InventoryBatch)
    (h : b.remainingQuantity ≠ 0) :
    snapOf (bs ++ [b])
      = snapOf bs ++ [{ quantity := b.remainingQuantity, cost := b.costPerGram }] := by
  simp [snapOf, List.filter_append, List.filter_cons, h]

/-- Coupling of the full walk: starting from coupled states and given
whole-gram quantities and no stockout, the snapshot fold tracks the
replay fold transaction by transaction. -/
theorem replay_snap_couple :
    ∀ (L : List Invoice) (rs : List InventoryBatch) (tq : ℚ),
      (∀ t ∈ L, IsPosIntQ t.quantityGrams) →
      (∀ b ∈ rs, ∃ n : ℕ, b.remainingQuantity = (n : ℚ)) →
      tq = batchStockSum rs →
      noStockoutAux rs L = true →
      (L.foldl snapStep (snapOf rs, tq)).1 = snapOf (replayAux rs L).2 ∧
      (L.foldl snapStep (snapOf rs, tq)).2 = batchStockSum (replayAux rs L).2 ∧
      (∀ b ∈ (replayAux rs L).2, ∃ n : ℕ, b.remainingQuantity = (n : ℚ)) := by
  intro L
  induction L with
  | nil =>
    intro rs tq _ hnat htq _
    exact ⟨rfl, htq, hnat⟩
  | cons inv rest ih =>
    intro rs tq hq hnat htq hns
    rw [noStockoutAux, Bool.and_eq_true] at hns
    rcases hns with ⟨hc, hns⟩
    rcases isPosIntQ_exists (hq inv (List.mem_cons_self _ _)) with ⟨m, hqm, hm1⟩
    have hqrest : ∀ t ∈ rest, IsPosIntQ t.quantityGrams :=
      fun t ht => hq t (List.mem_cons_of_mem _ ht)
    have hnn : ∀ b ∈ rs, 0 ≤ b.remainingQuantity := by
      intro b hb
      rcases hnat b hb with ⟨n, hn⟩
      rw [hn]
      exact Nat.cast_nonneg n
    simp only [replayAux, List.foldl_cons]
    cases htype : inv.type with
    | PURCHASE =>
      have hqne : inv.quantityGrams ≠ 0 := by
        rw [hqm]
        have : (1:ℚ) ≤ (m:ℚ) := by exact_mod_cast hm1
        intro hcontra
        rw [hcontra] at this
        norm_num at this
      have hstep : snapStep (snapOf rs, tq) inv
          = (snapOf (rs ++ [newBatchOf inv]), tq + inv.quantityGrams) := by
        simp only [snapStep, htype]
        rw [snapOf_append_batch rs (newBatchOf inv) (by simpa [newBatchOf] using hqne)]
        simp [newBatchOf]
      have hproc : (processOne rs inv).1 = rs ++ [newBatchOf inv] := by
        simp [processOne, htype]
      rw [hstep, hproc]
      refine ih (rs ++ [newBatchOf inv]) (tq + inv.quantityGrams) hqrest ?_ ?_
        (hproc ▸ hns)
      · intro b hb
        rw [List.mem_append] at hb
        rcases hb with hb | hb
        · exact hnat b hb
        · rw [List.mem_singleton] at hb
          subst hb
          exact ⟨m, hqm⟩
      · rw [batchStockSum_append, batchStockSum_cons, batchStockSum_nil, htq]
        show _ = _ + (inv.quantityGrams + 0)
        ring
    | SALE =>
      have hlo : (sellWalk inv.date rs inv.quantityGrams).2.1 ≤ epsReplay := by
        rw [htype] at hc
        exact of_decide_eq_true hc
      have hqsum : inv.quantityGrams ≤ batchStockSum rs := by
        by_contra hgt
        push_neg at hgt
        rcases batchStockSum_nat rs hnat with ⟨N, hN⟩
        have hmN : N < m := by
          rw [hqm, hN] at hgt
          exact_mod_cast hgt
        have hdiff : (1:ℚ) ≤ inv.quantityGrams - batchStockSum rs := by
          rw [hqm, hN]
          have : N + 1 ≤ m := by omega
          have hcast : ((N:ℚ)) + 1 ≤ (m:ℚ) := by exact_mod_cast this
          linarith
        have hlb := sellWalk_leftover_lb inv.date rs inv.quantityGrams hnn
        have : (1:ℚ) ≤ (sellWalk inv.date rs inv.quantityGrams).2.1 := by linarith
        have : (1:ℚ) ≤ epsReplay := le_trans this hlo
        norm_num [epsReplay] at this
      rcases sellWalk_couple inv.date rs inv.quantityGrams m hqm hnat hqsum
        with ⟨_, hw2, hw3, hw4⟩
      have hstep : snapStep (snapOf rs, tq) inv
          = (snapOf (sellWalk inv.date rs inv.quantityGrams).1,
             tq - inv.quantityGrams) := by
        rw [snapStep, htype, hw3]
      have hproc : (processOne rs inv).1 = (sellWalk inv.date rs inv.quantityGrams).1 := by
        simp [processOne, htype]
      rw [hstep, hproc]
      refine ih _ _ hqrest hw4 ?_ (hproc ▸ hns)
      rw [hw2, htq]

/-- Claim C1 amended: when every transaction quantity is a positive whole
number of grams and the replay never hits a stockout, the Snapshot Engine
at a cutoff on or after every transaction date returns exactly the Replay
Engine's live totals: grams = sum of batch remaining quantities and value
= sum of remaining × unit cost.  (Without these hypotheses the engines'
differing epsilons and the snapshot's clamped signed counter can diverge,
as `c1_counterexample_stockout_then_purchase` shows.) -/
theorem c1_snapshot_matches_replay :
    ∀ (txs : List Invoice) (cutoff : ℕ),
      (∀ t ∈ txs, t.date ≤ cutoff) →
      (∀ t ∈ txs, IsPosIntQ t.quantityGrams) →
      noStockout txs = true →
      (getInventorySnapshot txs cutoff).grams
          = batchStockSum (recalculateAllData txs).updatedInventory ∧
      (getInventorySnapshot txs cutoff).value
          = batchValueSum (recalculateAllData txs).updatedInventory := by
  intro txs cutoff hdate hq hns
  have hfilter : txs.filter (fun i => decide (i.date ≤ cutoff)) = txs :=
    List.filter_eq_self.mpr (fun t ht => decide_eq_true (hdate t ht))
  rcases replay_snap_couple (sortTx txs) [] 0
      (fun t ht => hq t (mem_stableSortBy.mp ht)) (by simp)
      (by rw [batchStockSum_nil]) hns
    with ⟨h1, h2, h3⟩
  rw [snapOf_nil] at h1 h2
  have hinv : (recalculateAllData txs).updatedInventory
      = (replayAux [] (sortTx txs)).2 := rfl
  have hsumnn : 0 ≤ batchStockSum (replayAux [] (sortTx txs)).2 := by
    refine batchStockSum_nonneg _ ?_
    intro b hb
    rcases h3 b hb with ⟨n, hn⟩
    rw [hn]
    exact Nat.cast_nonneg n
  constructor
  · show (getInventorySnapshot txs cutoff).grams = _
    simp only [getInventorySnapshot, hfilter]
    rw [h2, hinv]
    exact max_eq_right hsumnn
  · simp only [getInventorySnapshot, hfilter]
    rw [h1, hinv, snapValue_eq]

/-- Witness for C1 (amended) at scenario A with cutoff day 5. -/
theorem c1_snapshot_matches_replay_witness :
    (getInventorySnapshot scenarioA 5).grams
        = batchStockSum (recalculateAllData scenarioA).updatedInventory ∧
    (getInventorySnapshot scenarioA 5).value
        = batchValueSum (recalculateAllData scenarioA).updatedInventory :=
  c1_snapshot_matches_replay scenarioA 5 (by with_unfolding_all decide)
    (by with_unfolding_all decide) (by with_unfolding_all decide)
